import Mathlib

/-!
Shallow embedding of the goconf configuration-file library (package `conf`).

Strings are modelled as `List Char`; Go maps (`map[string]map[string]string`)
are modelled as association lists without duplicate keys (insertion replaces,
erasure removes every occurrence, so lookup behaves exactly like a Go map on
every state the operations can reach).
-/

namespace Conf

abbrev Str := List Char

/-- One section of a configuration: options mapped to values. -/
abbrev SectMap := List (Str × Str)

/-- `ConfigFile` is the representation of configuration settings
(`data map[string]map[string]string` in `conf.go`). -/
structure ConfigFile where
  data : List (Str × SectMap)
deriving DecidableEq, Repr

/-- Go map lookup `m[k]` on the association-list model. -/
def mapLookup {α : Type} : List (Str × α) → Str → Option α
  | [], _ => none
  | (k', v) :: rest, k => if k' = k then some v else mapLookup rest k

/-- Go map assignment `m[k] = v`: replace the binding if present, append otherwise. -/
def mapInsert {α : Type} : List (Str × α) → Str → α → List (Str × α)
  | [], k, v => [(k, v)]
  | (k', v') :: rest, k, v =>
    if k' = k then (k, v) :: rest else (k', v') :: mapInsert rest k v

/-- Go map deletion (`m[k] = v, false` in the pre-Go1 syntax of `conf.go`). -/
def mapErase {α : Type} : List (Str × α) → Str → List (Str × α)
  | [], _ => []
  | (k', v') :: rest, k =>
    if k' = k then mapErase rest k else (k', v') :: mapErase rest k

/-- `strings.ToLower` (restricted to ASCII case mapping). -/
def toLowerS (s : Str) : Str := s.map Char.toLower

/-- `DefaultSection = "default"` from `conf.go`. -/
def DefaultSection : Str := "default".toList

/-- Error-reason codes from the `iota` block of `conf.go`. -/
def SectionNotFound : Nat := 0

def OptionNotFound : Nat := 1

def MaxDepthReached : Nat := 2

def BlankSection : Nat := 3

def CouldNotParse : Nat := 4

/-- `ReadError` from `conf.go`: a reason code plus the offending line. -/
structure ReadError where
  Reason : Nat
  Line : Str
deriving DecidableEq, Repr

/-- `ConfigFile.AddSection` from `conf.go`: lower-cases the name, inserts an
empty option map when absent; returns whether a new section was inserted. -/
def AddSection (c : ConfigFile) (sec : Str) : ConfigFile × Bool :=
  let sec := toLowerS sec
  match mapLookup c.data sec with
  | some _ => (c, false)
  | none => (⟨mapInsert c.data sec []⟩, true)

/-- `ConfigFile.RemoveSection` from `conf.go`: lower-cases the name; keeps the
configuration unchanged (returning `false`) when the section is absent or is
the default section; otherwise deletes the section and all its options. -/
def RemoveSection (c : ConfigFile) (sec : Str) : ConfigFile × Bool :=
  let sec := toLowerS sec
  match mapLookup c.data sec with
  | none => (c, false)
  | some _ =>
    if sec = DefaultSection then (c, false)
    else (⟨mapErase c.data sec⟩, true)

/-- `ConfigFile.AddOption` from `conf.go`: ensures the section exists, then
stores the value under the lower-cased keys; returns `true` exactly when the
option was not present before. -/
def AddOption (c : ConfigFile) (sec opt value : Str) : ConfigFile × Bool :=
  let c := (AddSection c sec).1
  let sec := toLowerS sec
  let opt := toLowerS opt
  let sect := (mapLookup c.data sec).getD []
  let existed := (mapLookup sect opt).isSome
  (⟨mapInsert c.data sec (mapInsert sect opt value)⟩, !existed)

/-- `ConfigFile.RemoveOption` from `conf.go`. -/
def RemoveOption (c : ConfigFile) (sec opt : Str) : ConfigFile × Bool :=
  let sec := toLowerS sec
  let opt := toLowerS opt
  match mapLookup c.data sec with
  | none => (c, false)
  | some sect =>
    let ok := (mapLookup sect opt).isSome
    (⟨mapInsert c.data sec (mapErase sect opt)⟩, ok)

/-- `NewConfigFile` from `conf.go`: empty data plus the default section. -/
def NewConfigFile : ConfigFile :=
  (AddSection ⟨[]⟩ DefaultSection).1

/-- Modelled from the spec: `GetRawString` (a typed accessor of this
repository that is not among the given source files; only its call site in
`ConfigFile.Read` is). Per spec 4.4, the raw string lookup normalizes both
names to lower-case, fails when the section or the option is absent, and
otherwise returns the stored raw value unmodified. We return `none` on
failure; the caller in `Read` ignores the error and uses the empty string. -/
def GetRawString (c : ConfigFile) (sec opt : Str) : Option Str :=
  match mapLookup c.data (toLowerS sec) with
  | none => none
  | some sect => mapLookup sect (toLowerS opt)

/-- `c` as accepted by Go's `unicode.IsSpace` for the ASCII range
(the characters `strings.TrimSpace` trims on the inputs we model). -/
def isSpaceChar (c : Char) : Bool :=
  c = ' ' || c = '\t' || c = '\n' || c = '\x0b' || c = '\x0c' || c = '\r'

/-- `strings.TrimSpace`. -/
def trimSpace (l : Str) : Str :=
  ((l.dropWhile isSpaceChar).reverse.dropWhile isSpaceChar).reverse

/-- Boolean prefix test on character lists (`strings.Index`'s match test). -/
def isPrefixOfS : Str → Str → Bool
  | [], _ => true
  | _ :: _, [] => false
  | a :: as, b :: bs => a = b && isPrefixOfS as bs

/-- `strings.Index l pat`: position of the first occurrence of `pat` in `l`
(`none` for Go's `-1`). -/
def strIndex : Str → Str → Option Nat
  | l, pat =>
    if isPrefixOfS pat l then some 0
    else
      match l with
      | [] => none
      | _ :: rest => (strIndex rest pat).map (· + 1)

/-- The four comment markers of `stripComments` in `conf.go`, in source order. -/
def commentMarkers : List Str :=
  [[' ', ';'], ['\t', ';'], [' ', '#'], ['\t', '#']]

/-- One step of `stripComments`: truncate `l` at the first occurrence of `pat`
(`l = l[0:i]` in the Go loop body), or keep it unchanged when absent. -/
def trunc (l : Str) (pat : Str) : Str :=
  match strIndex l pat with
  | some i => l.take i
  | none => l

/-- `stripComments` from `conf.go`: fold the truncation step over the four
whitespace-preceded comment markers in source order. -/
def stripComments (l : Str) : Str :=
  commentMarkers.foldl trunc l

/-- `firstIndex` from `conf.go`, with `Option Nat` in place of the `-1`
convention: index of the first character of `s` that is one of `delim`. -/
def firstIndexN : Str → List Char → Option Nat
  | [], _ => none
  | c :: rest, delim =>
    if c ∈ delim then some 0 else (firstIndexN rest delim).map (· + 1)

/-- `firstIndex` from `conf.go` (returns `-1` when no delimiter occurs). -/
def firstIndex (s : Str) (delim : List Char) : Int :=
  match firstIndexN s delim with
  | some i => (i : Int)
  | none => -1

/-- Parser state of `ConfigFile.Read`: the configuration being mutated plus
the `section` and `option` variables tracking the current context. -/
structure ReadState where
  config : ConfigFile
  sec : Str
  opt : Str
deriving DecidableEq, Repr

/-- The body of the `switch` in `ConfigFile.Read`, applied to the
already-trimmed line `l`: classify the line and produce either the next
parser state or a `ReadError`. -/
def classifyLine (st : ReadState) (l : Str) : Except ReadError ReadState :=
  match l with
  | [] => .ok st
  | c0 :: _ =>
    if c0 = '#' then .ok st
    else if c0 = ';' then .ok st
    else if 3 ≤ l.length ∧ toLowerS (l.take 3) = ['r', 'e', 'm'] then .ok st
    else if c0 = '[' ∧ l.getLast? = some ']' then
      let sec := trimSpace ((l.drop 1).dropLast)
      .ok ⟨(AddSection st.config sec).1, sec, []⟩
    else if st.sec = [] then .error ⟨BlankSection, l⟩
    else
      let i := firstIndex l ['=', ':']
      if 0 < i then
        let opt := trimSpace (l.take i.toNat)
        let value := trimSpace (stripComments (l.drop (i.toNat + 1)))
        .ok ⟨(AddOption st.config st.sec opt value).1, st.sec, opt⟩
      else if st.sec ≠ [] ∧ st.opt ≠ [] then
        let prev := (GetRawString st.config st.sec st.opt).getD []
        let value := trimSpace (stripComments l)
        .ok ⟨(AddOption st.config st.sec st.opt (prev ++ '\n' :: value)).1, st.sec, st.opt⟩
      else .error ⟨CouldNotParse, l⟩

/-- One loop iteration of `ConfigFile.Read`: trim the line, then classify. -/
def processLine (st : ReadState) (line : Str) : Except ReadError ReadState :=
  classifyLine st (trimSpace line)

/-- `bufio.ReadString('\n')` iterated: the complete lines of the input, each
including its trailing newline. A final segment not terminated by a newline
is returned together with `os.EOF`, on which `Read` breaks out of its loop,
so such a segment is dropped here. -/
def splitLinesAux (acc : Str) : Str → List Str
  | [] => []
  | c :: rest =>
    if c = '\n' then (acc.reverse ++ ['\n']) :: splitLinesAux [] rest
    else splitLinesAux (c :: acc) rest

def splitLines (s : Str) : List Str :=
  splitLinesAux [] s

/-- The loop of `ConfigFile.Read`: process lines in order, stopping at the
first error; the state accumulated so far is kept (Go mutates in place). -/
def ReadLoop : ReadState → List Str → ReadState × Option ReadError
  | st, [] => (st, none)
  | st, l :: rest =>
    match processLine st l with
    | .ok st' => ReadLoop st' rest
    | .error e => (st, some e)

/-- `ConfigFile.Read`: parse the whole input starting from
`section = "default"`, `option = ""`; returns the mutated configuration and
the error, if any. -/
def Read (c : ConfigFile) (input : Str) : ConfigFile × Option ReadError :=
  let r := ReadLoop ⟨c, "default".toList, []⟩ (splitLines input)
  (r.1.config, r.2)

/-- `ReadConfigBytes` from the source: a fresh configuration populated by
`Read`. -/
def ReadConfigBytes (conf : Str) : ConfigFile × Option ReadError :=
  Read NewConfigFile conf

/-- First character of a comment marker: space or tab. -/
def isWS (c : Char) : Bool := c = ' ' || c = '\t'

/-- Second character of a comment marker: `;` or `#`. -/
def isCM (c : Char) : Bool := c = ';' || c = '#'

/-- Whether one of the four comment markers occurs at position 0. -/
def markerHead : Str → Bool
  | a :: b :: _ => isWS a && isCM b
  | _ => false

/-- Minimum of two optional indices, `none` acting as infinity. -/
def omin : Option Nat → Option Nat → Option Nat
  | none, y => y
  | some a, none => some a
  | some a, some b => some (min a b)

/-- The earliest position, among all four marker variants, at which a
comment marker occurs — the index the spec says `stripComments` cuts at. -/
def minMarkerIdx (l : Str) : Option Nat :=
  omin (omin (strIndex l [' ', ';']) (strIndex l ['\t', ';']))
       (omin (strIndex l [' ', '#']) (strIndex l ['\t', '#']))

/-- Whether the reserved default section is present. -/
def hasDefault (c : ConfigFile) : Bool :=
  (mapLookup c.data DefaultSection).isSome

/-- One mutating operation of the public surface, for stating the
default-section invariant over arbitrary operation sequences. -/
inductive Op where
  | addSection (s : Str)
  | removeSection (s : Str)
  | addOption (s o v : Str)
  | removeOption (s o : Str)
  | read (input : Str)

def applyOp (c : ConfigFile) : Op → ConfigFile
  | .addSection s => (AddSection c s).1
  | .removeSection s => (RemoveSection c s).1
  | .addOption s o v => (AddOption c s o v).1
  | .removeOption s o => (RemoveOption c s o).1
  | .read input => (Read c input).1

def applyOps (c : ConfigFile) (ops : List Op) : ConfigFile :=
  ops.foldl applyOp c

/-! ### Association-list map lemmas -/

lemma mapLookup_insert_self {α : Type} (m : List (Str × α)) (k : Str) (v : α) :
    mapLookup (mapInsert m k v) k = some v := by
  induction m with
  | nil => simp [mapInsert, mapLookup]
  | cons p rest ih =>
    obtain ⟨k', v'⟩ := p
    by_cases h : k' = k
    · simp [mapInsert, h, mapLookup]
    · simp [mapInsert, h, mapLookup, ih]

lemma mapLookup_insert_ne {α : Type} (m : List (Str × α)) (k k' : Str) (v : α)
    (h : k' ≠ k) : mapLookup (mapInsert m k v) k' = mapLookup m k' := by
  induction m with
  | nil => simp [mapInsert, mapLookup, Ne.symm h]
  | cons p rest ih =>
    obtain ⟨k0, v0⟩ := p
    by_cases h0 : k0 = k
    · subst h0
      simp [mapInsert, mapLookup, Ne.symm h]
    · simp [mapInsert, h0, mapLookup, ih]

lemma mapLookup_erase_self {α : Type} (m : List (Str × α)) (k : Str) :
    mapLookup (mapErase m k) k = none := by
  induction m with
  | nil => simp [mapErase, mapLookup]
  | cons p rest ih =>
    obtain ⟨k0, v0⟩ := p
    by_cases h0 : k0 = k
    · simp [mapErase, h0, ih]
    · simp [mapErase, h0, mapLookup, ih]

lemma mapLookup_erase_ne {α : Type} (m : List (Str × α)) (k k' : Str)
    (h : k' ≠ k) : mapLookup (mapErase m k) k' = mapLookup m k' := by
  induction m with
  | nil => simp [mapErase]
  | cons p rest ih =>
    obtain ⟨k0, v0⟩ := p
    by_cases h0 : k0 = k
    · subst h0
      simp [mapErase, mapLookup, Ne.symm h, ih]
    · simp [mapErase, h0, mapLookup, ih]

/-! ### Comment stripping: `stripComments` truncates at the earliest
whitespace-preceded marker -/

lemma trunc_nil (pat : Str) : trunc [] pat = [] := by
  unfold trunc strIndex
  split <;> simp

lemma trunc_of_pre (l pat : Str) (h : isPrefixOfS pat l = true) :
    trunc l pat = [] := by
  unfold trunc strIndex
  simp [h]

lemma strIndex_cons_not_pre (a : Char) (t pat : Str)
    (h : isPrefixOfS pat (a :: t) = false) :
    strIndex (a :: t) pat = (strIndex t pat).map (· + 1) := by
  rw [strIndex]
  simp [h]

lemma trunc_cons (a : Char) (t pat : Str)
    (h : isPrefixOfS pat (a :: t) = false) :
    trunc (a :: t) pat = a :: trunc t pat := by
  unfold trunc
  rw [strIndex_cons_not_pre a t pat h]
  cases strIndex t pat with
  | none => rfl
  | some i => simp [List.take]

lemma pre_marker_markerHead (m l : Str) (hm : m ∈ commentMarkers)
    (h : isPrefixOfS m l = true) : markerHead l = true := by
  simp [commentMarkers] at hm
  rcases hm with hm | hm | hm | hm <;> subst hm <;>
    match l with
    | [] => simp [isPrefixOfS] at h
    | [a] => simp [isPrefixOfS] at h
    | a :: b :: t =>
      simp [isPrefixOfS] at h
      obtain ⟨ha, hb⟩ := h
      subst ha
      subst hb
      simp [markerHead, isWS, isCM]

lemma not_markerHead_not_pre (m l : Str) (hm : m ∈ commentMarkers)
    (h : markerHead l = false) : isPrefixOfS m l = false := by
  cases hpre : isPrefixOfS m l with
  | false => rfl
  | true =>
    have hh := pre_marker_markerHead m l hm hpre
    simp [hh] at h

lemma trunc_shape (t pat : Str) :
    trunc t pat = [] ∨ ∃ b t' r, t = b :: t' ∧ trunc t pat = b :: r := by
  cases t with
  | nil => exact Or.inl (trunc_nil pat)
  | cons b t' =>
    unfold trunc
    cases h : strIndex (b :: t') pat with
    | none => exact Or.inr ⟨b, t', t', rfl, rfl⟩
    | some i =>
      cases i with
      | zero => exact Or.inl rfl
      | succ j => exact Or.inr ⟨b, t', t'.take j, rfl, rfl⟩

lemma markerHead_cons_trunc (a : Char) (t pat : Str)
    (h : markerHead (a :: t) = false) :
    markerHead (a :: trunc t pat) = false := by
  rcases trunc_shape t pat with h0 | ⟨b, t', r, ht, htr⟩
  · rw [h0]
    rfl
  · rw [htr]
    subst ht
    simpa [markerHead] using h

lemma foldl_trunc_cons (ms : List Str) (hms : ∀ m ∈ ms, m ∈ commentMarkers)
    (a : Char) (t : Str) (h : markerHead (a :: t) = false) :
    List.foldl trunc (a :: t) ms = a :: List.foldl trunc t ms := by
  induction ms generalizing a t with
  | nil => rfl
  | cons m ms ih =>
    have hm : m ∈ commentMarkers := hms m (List.mem_cons_self m ms)
    have hpre := not_markerHead_not_pre m (a :: t) hm h
    simp only [List.foldl_cons]
    rw [trunc_cons a t m hpre]
    exact ih (fun x hx => hms x (List.mem_cons_of_mem m hx)) a (trunc t m)
      (markerHead_cons_trunc a t m h)

lemma foldl_trunc_nil_list (ms : List Str) : List.foldl trunc [] ms = [] := by
  induction ms with
  | nil => rfl
  | cons m ms ih => simp only [List.foldl_cons, trunc_nil, ih]

lemma trunc_skip2 (a b : Char) (t : Str) (w c : Char)
    (h1 : isPrefixOfS [w, c] (a :: b :: t) = false)
    (h2 : isPrefixOfS [w, c] (b :: t) = false) :
    ∃ r, trunc (a :: b :: t) [w, c] = a :: b :: r := by
  unfold trunc
  rw [strIndex_cons_not_pre _ _ _ h1, strIndex_cons_not_pre _ _ _ h2]
  cases strIndex t [w, c] with
  | none => exact ⟨t, rfl⟩
  | some i => exact ⟨t.take i, by simp [List.take]⟩

lemma stripComments_hit (a b : Char) (t : Str)
    (ha : a = ' ' ∨ a = '\t') (hb : b = ';' ∨ b = '#') :
    stripComments (a :: b :: t) = [] := by
  rcases ha with rfl | rfl <;> rcases hb with rfl | rfl
  · simp only [stripComments, commentMarkers, List.foldl]
    rw [trunc_of_pre (' ' :: ';' :: t) [' ', ';'] (by rfl), trunc_nil, trunc_nil,
      trunc_nil]
  · simp only [stripComments, commentMarkers, List.foldl]
    obtain ⟨r1, h1⟩ := trunc_skip2 ' ' '#' t ' ' ';' (by rfl) (by rfl)
    rw [h1]
    obtain ⟨r2, h2⟩ := trunc_skip2 ' ' '#' r1 '\t' ';' (by rfl) (by rfl)
    rw [h2]
    rw [trunc_of_pre (' ' :: '#' :: r2) [' ', '#'] (by rfl), trunc_nil]
  · simp only [stripComments, commentMarkers, List.foldl]
    obtain ⟨r1, h1⟩ := trunc_skip2 '\t' ';' t ' ' ';' (by rfl) (by rfl)
    rw [h1]
    rw [trunc_of_pre ('\t' :: ';' :: r1) ['\t', ';'] (by rfl), trunc_nil,
      trunc_nil]
  · simp only [stripComments, commentMarkers, List.foldl]
    obtain ⟨r1, h1⟩ := trunc_skip2 '\t' '#' t ' ' ';' (by rfl) (by rfl)
    rw [h1]
    obtain ⟨r2, h2⟩ := trunc_skip2 '\t' '#' r1 '\t' ';' (by rfl) (by rfl)
    rw [h2]
    obtain ⟨r3, h3⟩ := trunc_skip2 '\t' '#' r2 ' ' '#' (by rfl) (by rfl)
    rw [h3]
    rw [trunc_of_pre ('\t' :: '#' :: r3) ['\t', '#'] (by rfl)]

lemma omin_zero_left (x : Option Nat) : omin (some 0) x = some 0 := by
  cases x <;> simp [omin]

lemma omin_zero_right (x : Option Nat) : omin x (some 0) = some 0 := by
  cases x <;> simp [omin]

lemma omin_map_succ (x y : Option Nat) :
    omin (x.map (· + 1)) (y.map (· + 1)) = (omin x y).map (· + 1) := by
  cases x <;> cases y <;> simp [omin] <;> omega

lemma minMarkerIdx_hit (a b : Char) (t : Str)
    (ha : a = ' ' ∨ a = '\t') (hb : b = ';' ∨ b = '#') :
    minMarkerIdx (a :: b :: t) = some 0 := by
  rcases ha with rfl | rfl <;> rcases hb with rfl | rfl
  · have h1 : strIndex (' ' :: ';' :: t) [' ', ';'] = some 0 := rfl
    unfold minMarkerIdx
    rw [h1, omin_zero_left, omin_zero_left]
  · have h1 : strIndex (' ' :: '#' :: t) [' ', '#'] = some 0 := rfl
    unfold minMarkerIdx
    rw [h1, omin_zero_left, omin_zero_right]
  · have h1 : strIndex ('\t' :: ';' :: t) ['\t', ';'] = some 0 := rfl
    unfold minMarkerIdx
    rw [h1, omin_zero_right, omin_zero_left]
  · have h1 : strIndex ('\t' :: '#' :: t) ['\t', '#'] = some 0 := rfl
    unfold minMarkerIdx
    rw [h1, omin_zero_right, omin_zero_right]

lemma minMarkerIdx_cons (a : Char) (t : Str) (h : markerHead (a :: t) = false) :
    minMarkerIdx (a :: t) = (minMarkerIdx t).map (· + 1) := by
  have h1 := not_markerHead_not_pre [' ', ';'] (a :: t) (by decide) h
  have h2 := not_markerHead_not_pre ['\t', ';'] (a :: t) (by decide) h
  have h3 := not_markerHead_not_pre [' ', '#'] (a :: t) (by decide) h
  have h4 := not_markerHead_not_pre ['\t', '#'] (a :: t) (by decide) h
  unfold minMarkerIdx
  rw [strIndex_cons_not_pre _ _ _ h1, strIndex_cons_not_pre _ _ _ h2,
      strIndex_cons_not_pre _ _ _ h3, strIndex_cons_not_pre _ _ _ h4,
      omin_map_succ, omin_map_succ, omin_map_succ]

/-- Claim C3: `stripComments` truncates its argument at the earliest
occurrence, among the four marker variants space-semicolon, tab-semicolon,
space-hash, tab-hash, of a whitespace-preceded comment marker (and leaves the
string unchanged — in particular any `;` or `#` not preceded by a space or a
tab stays in place — when no such marker occurs, since then
`minMarkerIdx l = none` and the whole string is taken). -/
theorem claimC3 (l : Str) :
    stripComments l = l.take ((minMarkerIdx l).getD l.length) := by
  induction l with
  | nil => rfl
  | cons a t ih =>
    cases hm : markerHead (a :: t) with
    | true =>
      cases t with
      | nil => simp [markerHead] at hm
      | cons b t' =>
        simp only [markerHead, Bool.and_eq_true, isWS, isCM, Bool.or_eq_true,
          decide_eq_true_eq] at hm
        rw [stripComments_hit a b t' hm.1 hm.2, minMarkerIdx_hit a b t' hm.1 hm.2]
        rfl
    | false =>
      have hstrip : stripComments (a :: t) = a :: stripComments t :=
        foldl_trunc_cons commentMarkers (fun m hmem => hmem) a t hm
      rw [hstrip, minMarkerIdx_cons a t hm, ih]
      cases minMarkerIdx t with
      | none => simp
      | some i => simp

/-! ### Parser claims -/

lemma firstIndexN_is_first (l : Str) (d : List Char) (i : Nat)
    (h : firstIndexN l d = some i) :
    (∃ ci, l.get? i = some ci ∧ ci ∈ d) ∧
      ∀ j, j < i → ∀ cj, l.get? j = some cj → cj ∉ d := by
  induction l generalizing i with
  | nil => simp [firstIndexN] at h
  | cons c rest ih =>
    rw [firstIndexN] at h
    by_cases hc : c ∈ d
    · rw [if_pos hc] at h
      obtain rfl : (0 : Nat) = i := by simpa using h
      exact ⟨⟨c, rfl, hc⟩, fun j hj => absurd hj (Nat.not_lt_zero j)⟩
    · rw [if_neg hc] at h
      obtain ⟨j, hj, rfl⟩ : ∃ j, firstIndexN rest d = some j ∧ j + 1 = i := by
        cases hf : firstIndexN rest d with
        | none => rw [hf] at h; simp at h
        | some j => rw [hf] at h; simp at h; exact ⟨j, rfl, h⟩
      obtain ⟨⟨ci, hci, hcid⟩, hmin⟩ := ih j hj
      refine ⟨⟨ci, by simpa using hci, hcid⟩, ?_⟩
      intro k hk ck hck
      cases k with
      | zero =>
        simp at hck
        subst hck
        exact hc
      | succ k' => exact hmin k' (by omega) ck (by simpa using hck)

/-- Claim C1, counterexample to the claim as stated: the parser starts with
current section `"default"`, not empty, so the very first non-header,
non-comment, non-blank line of a stream is parsed into the default section
and parsing succeeds — it does not fail with a blank-section error. -/
theorem claimC1_counterexample :
    (Read NewConfigFile ("x=1\n".toList)).2 = none ∧
      GetRawString (Read NewConfigFile ("x=1\n".toList)).1
        ("default".toList) ("x".toList) = some ("1".toList) := by
  refine ⟨rfl, rfl⟩

/-- Claim C1 (amended): if the current section is the empty string when a
trimmed line is encountered that is non-blank, not a `#`/`;` comment, not a
`rem` comment and not a section header, processing fails with a
blank-section error carrying the trimmed line text. (The original claim's
trigger — "before any section header has been established" — is wrong on
the code: `Read` starts with current section `"default"`, and the
counterexample shows such a line parsing successfully into the default
section, so the trigger is corrected to the current section being empty.) -/
theorem claimC1 (st : ReadState) (line : Str) (c0 : Char) (rest : Str)
    (hl : trimSpace line = c0 :: rest)
    (h1 : c0 ≠ '#') (h2 : c0 ≠ ';')
    (h3 : ¬(3 ≤ (c0 :: rest).length ∧
      toLowerS ((c0 :: rest).take 3) = ['r', 'e', 'm']))
    (h4 : ¬(c0 = '[' ∧ (c0 :: rest).getLast? = some ']'))
    (h5 : st.sec = []) :
    processLine st line = .error ⟨BlankSection, c0 :: rest⟩ := by
  unfold processLine
  rw [hl]
  simp only [classifyLine]
  rw [if_neg h1, if_neg h2, if_neg h3, if_neg h4, if_pos h5]

theorem claimC1_witness :
    processLine ⟨NewConfigFile, [], []⟩ ("x=1".toList) =
      .error ⟨BlankSection, "x=1".toList⟩ :=
  claimC1 ⟨NewConfigFile, [], []⟩ ("x=1".toList) 'x' ("=1".toList)
    (by decide) (by decide) (by decide) (by decide) (by decide) rfl

lemma firstIndex_eq_of_some (l : Str) (d : List Char) (i : Nat)
    (h : firstIndexN l d = some i) : firstIndex l d = (i : Int) := by
  unfold firstIndex
  rw [h]

lemma firstIndex_eq_of_none (l : Str) (d : List Char)
    (h : firstIndexN l d = none) : firstIndex l d = -1 := by
  unfold firstIndex
  rw [h]

/-- Claim C4: on a trimmed line that reaches the option-parsing branch
(non-blank, not a comment, not a header, current section set), the separator
is the first `=` or `:` scanning left to right; when its position `i` is
positive, the text before it (trimmed) becomes the option name, the text
after it (comment-stripped then trimmed) becomes the value recorded via
`AddOption` in the current section, and the current-option tracker is set to
that option name. -/
theorem claimC4 (st : ReadState) (line : Str) (c0 : Char) (rest : Str) (i : Nat)
    (hl : trimSpace line = c0 :: rest)
    (h1 : c0 ≠ '#') (h2 : c0 ≠ ';')
    (h3 : ¬(3 ≤ (c0 :: rest).length ∧
      toLowerS ((c0 :: rest).take 3) = ['r', 'e', 'm']))
    (h4 : ¬(c0 = '[' ∧ (c0 :: rest).getLast? = some ']'))
    (h5 : st.sec ≠ [])
    (hidx : firstIndexN (c0 :: rest) ['=', ':'] = some i)
    (hpos : 0 < i) :
    (∃ ci, (c0 :: rest).get? i = some ci ∧ (ci = '=' ∨ ci = ':')) ∧
    (∀ j, j < i → ∀ cj, (c0 :: rest).get? j = some cj → cj ≠ '=' ∧ cj ≠ ':') ∧
    processLine st line =
      .ok ⟨(AddOption st.config st.sec (trimSpace ((c0 :: rest).take i))
              (trimSpace (stripComments ((c0 :: rest).drop (i + 1))))).1,
           st.sec, trimSpace ((c0 :: rest).take i)⟩ := by
  obtain ⟨⟨ci, hci, hmem⟩, hmin⟩ := firstIndexN_is_first _ _ _ hidx
  refine ⟨⟨ci, hci, by simpa using hmem⟩, ?_, ?_⟩
  · intro j hj cj hcj
    have := hmin j hj cj hcj
    simp at this
    exact this
  · unfold processLine
    rw [hl]
    simp only [classifyLine]
    rw [if_neg h1, if_neg h2, if_neg h3, if_neg h4,
      if_neg (fun hc => h5 hc)]
    rw [firstIndex_eq_of_some _ _ _ hidx]
    rw [if_pos (by exact_mod_cast hpos)]
    simp

/-- Claim C5: on a trimmed line that reaches the option-parsing branch with
no `=`/`:` separator at all, if the current option tracker is set (the
current section always is in that branch) the line is treated as a
continuation: its comment-stripped, trimmed text is appended to the stored
value of the current option, joined by a newline, via `AddOption` (which
replaces the stored value); otherwise parsing fails with a
could-not-parse-line error carrying the trimmed line text. -/
theorem claimC5 (st : ReadState) (line : Str) (c0 : Char) (rest : Str)
    (hl : trimSpace line = c0 :: rest)
    (h1 : c0 ≠ '#') (h2 : c0 ≠ ';')
    (h3 : ¬(3 ≤ (c0 :: rest).length ∧
      toLowerS ((c0 :: rest).take 3) = ['r', 'e', 'm']))
    (h4 : ¬(c0 = '[' ∧ (c0 :: rest).getLast? = some ']'))
    (h5 : st.sec ≠ [])
    (hidx : firstIndexN (c0 :: rest) ['=', ':'] = none) :
    (st.opt ≠ [] →
      processLine st line =
        .ok ⟨(AddOption st.config st.sec st.opt
                (((GetRawString st.config st.sec st.opt).getD []) ++
                  '\n' :: trimSpace (stripComments (c0 :: rest)))).1,
             st.sec, st.opt⟩) ∧
    (st.opt = [] →
      processLine st line = .error ⟨CouldNotParse, c0 :: rest⟩) := by
  have hbranch : processLine st line =
      (if st.sec ≠ [] ∧ st.opt ≠ [] then
        .ok ⟨(AddOption st.config st.sec st.opt
                (((GetRawString st.config st.sec st.opt).getD []) ++
                  '\n' :: trimSpace (stripComments (c0 :: rest)))).1,
             st.sec, st.opt⟩
      else .error ⟨CouldNotParse, c0 :: rest⟩) := by
    unfold processLine
    rw [hl]
    simp only [classifyLine]
    rw [if_neg h1, if_neg h2, if_neg h3, if_neg h4,
      if_neg (fun hc => h5 hc)]
    rw [firstIndex_eq_of_none _ _ hidx]
    norm_num
  constructor
  · intro hopt
    rw [hbranch, if_pos ⟨h5, hopt⟩]
  · intro hopt
    rw [hbranch, if_neg (fun hc => hc.2 hopt)]

theorem claimC4_witness :
    processLine ⟨NewConfigFile, "s".toList, []⟩ ("a=1".toList) =
      .ok ⟨(AddOption NewConfigFile ("s".toList) (trimSpace (("a=1".toList).take 1))
              (trimSpace (stripComments (("a=1".toList).drop (1 + 1))))).1,
           "s".toList, trimSpace (("a=1".toList).take 1)⟩ :=
  (claimC4 ⟨NewConfigFile, "s".toList, []⟩ ("a=1".toList) 'a' ("=1".toList) 1
    (by decide) (by decide) (by decide) (by decide) (by decide) (by decide)
    (by decide) (by decide)).2.2

theorem claimC5_witness :
    processLine ⟨⟨[("s".toList, [("a".toList, "1".toList)])]⟩, "s".toList,
        "a".toList⟩ ("entry".toList) =
      .ok ⟨(AddOption ⟨[("s".toList, [("a".toList, "1".toList)])]⟩ ("s".toList)
              ("a".toList)
              (((GetRawString ⟨[("s".toList, [("a".toList, "1".toList)])]⟩
                  ("s".toList) ("a".toList)).getD []) ++
                '\n' :: trimSpace (stripComments ("entry".toList)))).1,
           "s".toList, "a".toList⟩ ∧
    processLine ⟨NewConfigFile, "s".toList, []⟩ ("nosep".toList) =
      .error ⟨CouldNotParse, "nosep".toList⟩ :=
  ⟨(claimC5 ⟨⟨[("s".toList, [("a".toList, "1".toList)])]⟩, "s".toList,
      "a".toList⟩ ("entry".toList) 'e' ("ntry".toList)
      (by decide) (by decide) (by decide) (by decide) (by decide) (by decide)
      (by decide)).1 (by decide),
   (claimC5 ⟨NewConfigFile, "s".toList, []⟩ ("nosep".toList) 'n' ("osep".toList)
      (by decide) (by decide) (by decide) (by decide) (by decide) (by decide)
      (by decide)).2 rfl⟩

/-! ### Dropped unterminated final line (C6) -/

lemma splitLinesAux_no_nl (acc seg : Str) (h : '\n' ∉ seg) :
    splitLinesAux acc seg = [] := by
  induction seg generalizing acc with
  | nil => rfl
  | cons c rest ih =>
    rw [List.mem_cons, not_or] at h
    rw [splitLinesAux, if_neg (fun hc => h.1 hc.symm)]
    exact ih (c :: acc) h.2

lemma splitLinesAux_append_no_nl (s : Str) : ∀ acc seg : Str, '\n' ∉ seg →
    splitLinesAux acc (s ++ seg) = splitLinesAux acc s := by
  induction s with
  | nil =>
    intro acc seg h
    rw [List.nil_append]
    exact splitLinesAux_no_nl acc seg h
  | cons c rest ih =>
    intro acc seg h
    rw [List.cons_append, splitLinesAux, splitLinesAux]
    by_cases hc : c = '\n'
    · rw [if_pos hc, if_pos hc, ih [] seg h]
    · rw [if_neg hc, if_neg hc]
      exact ih (c :: acc) seg h

/-- Claim C6: `Read` silently drops a final input segment that is not
terminated by a newline: appending a newline-free segment to any input
changes nothing about the result of `Read`, and an input consisting only of
such a segment parses to the unchanged configuration with no error. -/
theorem claimC6 (c : ConfigFile) (s seg : Str) (h : '\n' ∉ seg) :
    Read c (s ++ seg) = Read c s ∧ Read c seg = (c, none) := by
  constructor
  · unfold Read splitLines
    rw [splitLinesAux_append_no_nl s [] seg h]
  · unfold Read splitLines
    rw [splitLinesAux_no_nl [] seg h]
    rfl

theorem claimC6_witness :
    Read NewConfigFile ("[a]\nx=1\n".toList ++ "y=2".toList) =
        Read NewConfigFile ("[a]\nx=1\n".toList) ∧
      Read NewConfigFile ("y=2".toList) = (NewConfigFile, none) :=
  claimC6 NewConfigFile ("[a]\nx=1\n".toList) ("y=2".toList) (by decide)

/-! ### First-error semantics of the read loop (C10) -/

/-- Claim C10: parsing halts at the first erroneous line. If the lines
before some offending line all process without error reaching state `st'`,
and that line fails with error `e`, then the whole loop returns exactly
`(st', some e)` — the typed error of the first failing line, with a state
carrying no mutation derived from any line after it (the lines `post` do
not occur in the result at all). -/
theorem claimC10 (st st' : ReadState) (pre post : List Str) (bad : Str)
    (e : ReadError)
    (h1 : ReadLoop st pre = (st', none))
    (h2 : processLine st' bad = .error e) :
    ReadLoop st (pre ++ bad :: post) = (st', some e) := by
  induction pre generalizing st with
  | nil =>
    rw [ReadLoop] at h1
    obtain ⟨rfl, -⟩ := Prod.mk.injEq .. ▸ h1
    rw [List.nil_append, ReadLoop, h2]
  | cons l pre ih =>
    rw [List.cons_append, ReadLoop]
    rw [ReadLoop] at h1
    cases hp : processLine st l with
    | ok st1 =>
      rw [hp] at h1
      exact ih st1 h1
    | error e' =>
      rw [hp] at h1
      simp at h1

theorem claimC10_witness :
    ReadLoop ⟨NewConfigFile, "default".toList, []⟩
        ["[s]\n".toList, "?\n".toList, "x=1\n".toList] =
      (⟨⟨[("default".toList, []), ("s".toList, [])]⟩, "s".toList, []⟩,
        some ⟨CouldNotParse, "?".toList⟩) :=
  claimC10 ⟨NewConfigFile, "default".toList, []⟩
    ⟨⟨[("default".toList, []), ("s".toList, [])]⟩, "s".toList, []⟩
    ["[s]\n".toList] ["x=1\n".toList] ("?\n".toList)
    ⟨CouldNotParse, "?".toList⟩ rfl rfl

/-! ### The default section always exists (C2) -/

lemma mapLookup_insert_isSome {α : Type} (m : List (Str × α)) (k k' : Str)
    (v : α) (h : (mapLookup m k').isSome = true) :
    (mapLookup (mapInsert m k v) k').isSome = true := by
  by_cases hk : k' = k
  · subst hk
    rw [mapLookup_insert_self]
    rfl
  · rw [mapLookup_insert_ne _ _ _ _ hk]
    exact h

lemma AddSection_pres (c : ConfigFile) (s : Str)
    (hd : hasDefault c = true) : hasDefault (AddSection c s).1 = true := by
  cases hm : mapLookup c.data (toLowerS s) with
  | some sect =>
    simp only [AddSection, hm]
    exact hd
  | none =>
    simp only [AddSection, hm]
    exact mapLookup_insert_isSome c.data (toLowerS s) DefaultSection [] hd

lemma AddOption_pres (c : ConfigFile) (s o v : Str)
    (hd : hasDefault c = true) : hasDefault (AddOption c s o v).1 = true := by
  simp only [AddOption]
  exact mapLookup_insert_isSome _ _ _ _ (AddSection_pres c s hd)

lemma RemoveSection_pres (c : ConfigFile) (s : Str)
    (hd : hasDefault c = true) : hasDefault (RemoveSection c s).1 = true := by
  cases hm : mapLookup c.data (toLowerS s) with
  | none =>
    simp only [RemoveSection, hm]
    exact hd
  | some sect =>
    by_cases hdef : toLowerS s = DefaultSection
    · simp only [RemoveSection, hm]
      rw [if_pos hdef]
      exact hd
    · simp only [RemoveSection, hm]
      rw [if_neg hdef]
      show (mapLookup (mapErase c.data (toLowerS s)) DefaultSection).isSome = true
      rw [mapLookup_erase_ne _ _ _ (fun hh => hdef hh.symm)]
      exact hd

lemma RemoveOption_pres (c : ConfigFile) (s o : Str)
    (hd : hasDefault c = true) : hasDefault (RemoveOption c s o).1 = true := by
  cases hm : mapLookup c.data (toLowerS s) with
  | none =>
    simp only [RemoveOption, hm]
    exact hd
  | some sect =>
    simp only [RemoveOption, hm]
    exact mapLookup_insert_isSome _ _ _ _ hd

lemma classifyLine_pres (st : ReadState) (l : Str) (st' : ReadState)
    (h : classifyLine st l = .ok st') (hd : hasDefault st.config = true) :
    hasDefault st'.config = true := by
  cases l with
  | nil =>
    obtain rfl : st = st' := by simpa [classifyLine] using h
    exact hd
  | cons c0 rest =>
    simp only [classifyLine] at h
    split at h
    · obtain rfl : st = st' := by simpa using h
      exact hd
    · split at h
      · obtain rfl : st = st' := by simpa using h
        exact hd
      · split at h
        · obtain rfl : st = st' := by simpa using h
          exact hd
        · split at h
          · simp only [Except.ok.injEq] at h
            subst h
            exact AddSection_pres _ _ hd
          · split at h
            · exact absurd h (by simp)
            · split at h
              · simp only [Except.ok.injEq] at h
                subst h
                exact AddOption_pres _ _ _ _ hd
              · split at h
                · simp only [Except.ok.injEq] at h
                  subst h
                  exact AddOption_pres _ _ _ _ hd
                · exact absurd h (by simp)

lemma ReadLoop_pres (lines : List Str) : ∀ st : ReadState,
    hasDefault st.config = true →
    hasDefault (ReadLoop st lines).1.config = true := by
  induction lines with
  | nil => intro st hd; exact hd
  | cons l rest ih =>
    intro st hd
    rw [ReadLoop]
    cases hp : processLine st l with
    | ok st1 => exact ih st1 (classifyLine_pres st (trimSpace l) st1 hp hd)
    | error e => exact hd

lemma Read_pres (c : ConfigFile) (input : Str) (hd : hasDefault c = true) :
    hasDefault (Read c input).1 = true :=
  ReadLoop_pres (splitLines input) ⟨c, "default".toList, []⟩ hd

lemma applyOp_pres (c : ConfigFile) (op : Op) (hd : hasDefault c = true) :
    hasDefault (applyOp c op) = true := by
  cases op with
  | addSection s => exact AddSection_pres c s hd
  | removeSection s => exact RemoveSection_pres c s hd
  | addOption s o v => exact AddOption_pres c s o v hd
  | removeOption s o => exact RemoveOption_pres c s o hd
  | read input => exact Read_pres c input hd

lemma applyOps_pres (ops : List Op) : ∀ c : ConfigFile,
    hasDefault c = true → hasDefault (applyOps c ops) = true := by
  induction ops with
  | nil => intro c hd; exact hd
  | cons op rest ih =>
    intro c hd
    exact ih (applyOp c op) (applyOp_pres c op hd)

/-- Claim C2: the reserved `"default"` section exists in every configuration
built by `NewConfigFile` (hence by every loading entry point, which all
start from `NewConfigFile`) and still exists after any sequence of
`AddSection`, `RemoveSection`, `AddOption`, `RemoveOption` and `Read`
operations; and `RemoveSection` applied to any casing of the default
section's name returns `false` and changes nothing. -/
theorem claimC2 :
    (∀ ops : List Op, hasDefault (applyOps NewConfigFile ops) = true) ∧
    (∀ (c : ConfigFile) (s : Str), toLowerS s = DefaultSection →
      RemoveSection c s = (c, false)) := by
  constructor
  · intro ops
    exact applyOps_pres ops NewConfigFile (by decide)
  · intro c s h
    cases hm : mapLookup c.data DefaultSection with
    | none => simp only [RemoveSection, h, hm]
    | some sect =>
      simp [RemoveSection, h, hm]

theorem claimC2_witness :
    hasDefault (applyOps NewConfigFile
      [Op.addOption ("Sec".toList) ("Opt".toList) ("v".toList),
       Op.removeSection ("DEFAULT".toList),
       Op.read ("[a]\nx=1\n".toList)]) = true ∧
    RemoveSection NewConfigFile ("Default".toList) = (NewConfigFile, false) :=
  ⟨claimC2.1 _, claimC2.2 NewConfigFile ("Default".toList) (by decide)⟩

/-! ### Case-insensitive storage (C7), AddOption (C8), RemoveSection (C9) -/

lemma GetRawString_AddOption_self (c : ConfigFile) (s o v : Str) :
    GetRawString (AddOption c s o v).1 s o = some v := by
  simp only [GetRawString, AddOption, mapLookup_insert_self]

lemma AddSection_getD (c : ConfigFile) (s : Str) :
    (mapLookup (AddSection c s).1.data (toLowerS s)).getD [] =
      (mapLookup c.data (toLowerS s)).getD [] := by
  cases hm : mapLookup c.data (toLowerS s) with
  | some sect => simp only [AddSection, hm]
  | none => simp only [AddSection, hm, mapLookup_insert_self, Option.getD_some,
      Option.getD_none]

/-- Claim C7: storage is case-insensitive. `AddSection` and `AddOption`
normalize names to lower-case, so two casings with the same lower-casing
yield literally the same resulting configuration (in particular, any casing
behaves like the lower-cased name itself); and a value added under one
casing is the value found under any other casing of the same names. -/
theorem claimC7 :
    (∀ (c : ConfigFile) (s1 s2 : Str), toLowerS s1 = toLowerS s2 →
      AddSection c s1 = AddSection c s2) ∧
    (∀ (c : ConfigFile) (s1 s2 o1 o2 v : Str), toLowerS s1 = toLowerS s2 →
      toLowerS o1 = toLowerS o2 → AddOption c s1 o1 v = AddOption c s2 o2 v) ∧
    (∀ (c : ConfigFile) (s1 o1 s2 o2 v : Str), toLowerS s1 = toLowerS s2 →
      toLowerS o1 = toLowerS o2 →
      GetRawString (AddOption c s1 o1 v).1 s2 o2 = some v) := by
  refine ⟨?_, ?_, ?_⟩
  · intro c s1 s2 h
    unfold AddSection
    rw [h]
  · intro c s1 s2 o1 o2 v hs ho
    unfold AddOption AddSection
    rw [hs, ho]
  · intro c s1 o1 s2 o2 v hs ho
    unfold GetRawString
    rw [← hs, ← ho]
    exact GetRawString_AddOption_self c s1 o1 v

theorem claimC7_witness :
    AddSection NewConfigFile ("Foo".toList) =
        AddSection NewConfigFile ("foo".toList) ∧
      AddOption NewConfigFile ("Foo".toList) ("Bar".toList) ("1".toList) =
        AddOption NewConfigFile ("foo".toList) ("bar".toList) ("1".toList) ∧
      GetRawString (AddOption NewConfigFile ("Foo".toList) ("Bar".toList)
          ("1".toList)).1 ("FOO".toList) ("BAR".toList) = some ("1".toList) :=
  ⟨claimC7.1 NewConfigFile ("Foo".toList) ("foo".toList) (by decide),
   claimC7.2.1 NewConfigFile ("Foo".toList) ("foo".toList) ("Bar".toList)
     ("bar".toList) ("1".toList) (by decide) (by decide),
   claimC7.2.2 NewConfigFile ("Foo".toList) ("Bar".toList) ("FOO".toList)
     ("BAR".toList) ("1".toList) (by decide) (by decide)⟩

/-- Claim C8: `AddOption` creates the (lower-cased) section when absent,
stores the value under the lower-cased option key overwriting any prior
value (leaving every other option of that section unchanged), and returns
`true` exactly when the lower-cased key was not previously present in that
section. -/
theorem claimC8 (c : ConfigFile) (s o v : Str) :
    GetRawString (AddOption c s o v).1 s o = some v ∧
    (∀ o', o' ≠ toLowerS o →
      mapLookup ((mapLookup (AddOption c s o v).1.data (toLowerS s)).getD []) o' =
        mapLookup ((mapLookup c.data (toLowerS s)).getD []) o') ∧
    (AddOption c s o v).2 =
      !(mapLookup ((mapLookup c.data (toLowerS s)).getD []) (toLowerS o)).isSome ∧
    (mapLookup (AddOption c s o v).1.data (toLowerS s)).isSome = true := by
  refine ⟨GetRawString_AddOption_self c s o v, ?_, ?_, ?_⟩
  · intro o' ho'
    show mapLookup ((mapLookup (mapInsert (AddSection c s).1.data (toLowerS s)
        (mapInsert ((mapLookup (AddSection c s).1.data (toLowerS s)).getD [])
          (toLowerS o) v)) (toLowerS s)).getD []) o' = _
    rw [mapLookup_insert_self, Option.getD_some,
      mapLookup_insert_ne _ _ _ _ ho', AddSection_getD]
  · show (!(mapLookup ((mapLookup (AddSection c s).1.data (toLowerS s)).getD [])
        (toLowerS o)).isSome) = _
    rw [AddSection_getD]
  · show (mapLookup (mapInsert (AddSection c s).1.data (toLowerS s) _)
        (toLowerS s)).isSome = true
    rw [mapLookup_insert_self]
    rfl

theorem claimC8_witness :
    GetRawString (AddOption NewConfigFile ("S".toList) ("Opt".toList)
        ("v".toList)).1 ("S".toList) ("Opt".toList) = some ("v".toList) ∧
      mapLookup ((mapLookup (AddOption NewConfigFile ("S".toList) ("Opt".toList)
            ("v".toList)).1.data (toLowerS ("S".toList))).getD [])
          ("z".toList) =
        mapLookup ((mapLookup NewConfigFile.data
            (toLowerS ("S".toList))).getD []) ("z".toList) ∧
      (AddOption NewConfigFile ("S".toList) ("Opt".toList) ("v".toList)).2 =
        !(mapLookup ((mapLookup NewConfigFile.data
            (toLowerS ("S".toList))).getD []) (toLowerS ("Opt".toList))).isSome :=
  ⟨(claimC8 NewConfigFile ("S".toList) ("Opt".toList) ("v".toList)).1,
   (claimC8 NewConfigFile ("S".toList) ("Opt".toList) ("v".toList)).2.1
     ("z".toList) (by decide),
   (claimC8 NewConfigFile ("S".toList) ("Opt".toList) ("v".toList)).2.2.1⟩

/-- Claim C9: `RemoveSection` returns `false` and leaves the configuration
unchanged when the lower-cased name is the reserved default section or is
not present; otherwise it deletes that section with all its options, leaves
every other section unchanged, and returns `true`. -/
theorem claimC9 (c : ConfigFile) (s : Str) :
    (toLowerS s = DefaultSection ∨ mapLookup c.data (toLowerS s) = none →
      RemoveSection c s = (c, false)) ∧
    (toLowerS s ≠ DefaultSection → (mapLookup c.data (toLowerS s)).isSome = true →
      (RemoveSection c s).2 = true ∧
      mapLookup (RemoveSection c s).1.data (toLowerS s) = none ∧
      ∀ s', s' ≠ toLowerS s →
        mapLookup (RemoveSection c s).1.data s' = mapLookup c.data s') := by
  constructor
  · intro h
    rcases h with h | h
    · cases hm : mapLookup c.data (toLowerS s) with
      | none => simp only [RemoveSection, hm]
      | some sect =>
        simp [RemoveSection, hm, h]
        cases mapLookup c.data DefaultSection <;> rfl
    · simp only [RemoveSection, h]
  · intro hdef hsome
    cases hm : mapLookup c.data (toLowerS s) with
    | none =>
      rw [hm] at hsome
      simp at hsome
    | some sect =>
      have hr : RemoveSection c s = (⟨mapErase c.data (toLowerS s)⟩, true) := by
        simp only [RemoveSection, hm]
        rw [if_neg hdef]
      rw [hr]
      refine ⟨rfl, mapLookup_erase_self _ _, ?_⟩
      intro s' hs'
      exact mapLookup_erase_ne _ _ _ hs'

theorem claimC9_witness :
    RemoveSection NewConfigFile ("DEFAULT".toList) = (NewConfigFile, false) ∧
      (RemoveSection ((AddSection NewConfigFile ("x".toList)).1)
        ("X".toList)).2 = true ∧
      mapLookup (RemoveSection ((AddSection NewConfigFile ("x".toList)).1)
          ("X".toList)).1.data (toLowerS ("X".toList)) = none ∧
      mapLookup (RemoveSection ((AddSection NewConfigFile ("x".toList)).1)
          ("X".toList)).1.data ("default".toList) =
        mapLookup ((AddSection NewConfigFile ("x".toList)).1).data
          ("default".toList) :=
  ⟨(claimC9 NewConfigFile ("DEFAULT".toList)).1 (Or.inl (by decide)),
   ((claimC9 ((AddSection NewConfigFile ("x".toList)).1) ("X".toList)).2
     (by decide) (by decide)).1,
   ((claimC9 ((AddSection NewConfigFile ("x".toList)).1) ("X".toList)).2
     (by decide) (by decide)).2.1,
   ((claimC9 ((AddSection NewConfigFile ("x".toList)).1) ("X".toList)).2
     (by decide) (by decide)).2.2 ("default".toList) (by decide)⟩

end Conf
